import Mathlib

/-!
Verification of the mdformat-obsidian core: shallow embedding of the
escape scanner, wikilink/embed inline scanner, callout block scanner,
callout renderer, ordered-list numbering, and paragraph canonicalizer,
translated from `src/mdformat_obsidian`.

Strings are modelled as `List Char` (Python `str` over its code points).
Python helpers (`str.rstrip`, `str.replace`, slicing, negative indexing)
are modelled explicitly below.
-/

namespace MdformatObsidian

/-- Convert a Lean string literal to the `List Char` model. -/
def strL (s : String) : List Char := s.toList

/-- Python `str.isspace` for the ASCII whitespace characters
(space, tab, newline, carriage return, vertical tab, form feed).
All inputs relevant here are ASCII. -/
def isPySpace (c : Char) : Bool :=
  c = ' ' || c = '\t' || c = '\n' || c = '\r' || c = '\x0b' || c = '\x0c'

/-- Space-or-tab test, used by the paragraph guards (`strip(" \t")` etc.). -/
def isSpaceTab (c : Char) : Bool := c = ' ' || c = '\t'

/-- Python `str.rstrip()` (strip trailing whitespace). -/
def pyRstrip (l : List Char) : List Char :=
  (l.reverse.dropWhile isPySpace).reverse

/-- Python `str.strip(" \t")` (strip spaces and tabs from both ends). -/
def pyStripSpaceTab (l : List Char) : List Char :=
  ((l.dropWhile isSpaceTab).reverse.dropWhile isSpaceTab).reverse

/-- Decidable "starts with" on the `List Char` model (Python `startswith`). -/
def listStartsWith : List Char → List Char → Bool
  | _, [] => true
  | [], _ :: _ => false
  | c :: cs, p :: ps => c = p && listStartsWith cs ps

/-- Test whether the first character of `l` is `c`. -/
def charAt0Is (l : List Char) (c : Char) : Bool :=
  match l with
  | x :: _ => x = c
  | [] => false

/-- Lowercase every character (Python `str.lower()` on ASCII input). -/
def lowerList (l : List Char) : List Char := l.map Char.toLower

/-- Python `s.replace(t, "\\" + t, 1)`: insert one escape character in
front of the first occurrence of `target`. -/
def replaceFirstEscape (target : Char) : List Char → List Char
  | [] => []
  | c :: rest =>
    if c = target then '\\' :: c :: rest else c :: replaceFirstEscape target rest

/-- Auxiliary for `splitLines`: first line and remaining lines. -/
def splitLinesAux : List Char → List Char × List (List Char)
  | [] => ([], [])
  | c :: rest =>
    if c = '\n' then ([], (splitLinesAux rest).1 :: (splitLinesAux rest).2)
    else (c :: (splitLinesAux rest).1, (splitLinesAux rest).2)

/-- Python `str.split("\n")`; always returns at least one line. -/
def splitLines (l : List Char) : List (List Char) :=
  (splitLinesAux l).1 :: (splitLinesAux l).2

/-- Python `"\n".join(lines)`. -/
def joinLines : List (List Char) → List Char
  | [] => []
  | [l] => l
  | l :: ls => l ++ '\n' :: joinLines ls

/-- Python `str.rjust(w, c)`. -/
def rjust (c : Char) (w : Nat) (l : List Char) : List Char :=
  List.replicate (w - l.length) c ++ l

/-- Decimal digits of a natural number, as Python `str(n)` produces them.
Fuel-based so that it evaluates by kernel reduction; `natDigits_unfold`
below gives the clean recurrence. -/
def natDigitsAux : Nat → Nat → List Char
  | 0, _ => []
  | fuel + 1, n =>
    if n < 10 then [Nat.digitChar n]
    else natDigitsAux fuel (n / 10) ++ [Nat.digitChar (n % 10)]

/-- Python `str(n)` for a natural number. -/
def natDigits (n : Nat) : List Char := natDigitsAux (n + 1) n

/-- Numeric value of a decimal digit string (to read markers back). -/
def digitsToNat (l : List Char) : Nat :=
  l.foldl (fun a c => a * 10 + (c.toNat - '0'.toNat)) 0

/-! ## Escape scanner (`mdit_plugins/_obsidian_links.py`, `is_escaped`) -/

/-- Python indexing `l[i]`, including the negative-index semantics
(`l[-1]` is the last element).  `none` corresponds to an `IndexError`. -/
def pyIndex (l : List Char) (i : Int) : Option Char :=
  if 0 ≤ i then l.get? i.toNat
  else if 0 ≤ (l.length : Int) + i then l.get? ((l.length : Int) + i).toNat
  else none

/-- Loop body of `is_escaped`: while `back_pos >= 0`, decrement `back_pos`
and count consecutive `\` characters read via Python indexing (so the
read at `back_pos = -1` wraps to the last character of the buffer, exactly
as `state.src[back_pos]` does in the source).  The fuel argument only
bounds the iteration count; `is_escaped` supplies enough fuel for the
loop to run to completion.  A `none` read (an `IndexError` in Python,
possible only for an empty buffer or an out-of-range start) stops the
loop here; no call in this development hits that case. -/
def countBackslashesAux (src : List Char) : Nat → Int → Nat → Nat
  | 0, _, count => count
  | fuel + 1, backPos, count =>
    if 0 ≤ backPos then
      let bp := backPos - 1
      match pyIndex src bp with
      | some c => if c = '\\' then countBackslashesAux src fuel bp (count + 1) else count
      | none => count
    else count

/-- `is_escaped(state, back_pos, mod=0)` from `_obsidian_links.py`:
count the `\` characters scanned backward from `pos`; return `false` for
a zero count, else `true` iff `count % 2 ≠ mod`.  The source gives `mod`
the default value `0`; call sites here pass it explicitly. -/
def is_escaped (src : List Char) (pos : Nat) (mod : Nat) : Bool :=
  let backslashes := countBackslashesAux src (pos + 2) (Int.ofNat pos) 0
  if backslashes = 0 then false
  else decide (backslashes % 2 ≠ mod)

/-- Length of the maximal run of backslashes immediately before position
`pos`, bounded by the buffer start.  This is the run the specification's
parity rule (`is_escaped(s, i) = ((n mod 2) == 1)`) speaks about. -/
def backslashRunBefore (src : List Char) (pos : Nat) : Nat :=
  ((src.take pos).reverse.takeWhile (fun c => c = '\\')).length

/-! ## Wikilink / embed inline scanner (`_obsidian_links.py`) -/

/-- One parsed inline token (type and raw content). -/
structure InlineToken where
  ttype : String
  content : List Char
deriving DecidableEq, Repr

/-- The inline scanner state: buffer, position, emitted tokens. -/
structure StateInline where
  src : List Char
  pos : Nat
  tokens : List InlineToken
deriving DecidableEq, Repr

/-- Index of the first occurrence of `"]]"` in `l`, if any. -/
def findSub : List Char → Option Nat
  | ']' :: ']' :: _ => some 0
  | _ :: rest => (findSub rest).map (· + 1)
  | [] => none

/-- Python `src.index("]]", start)` as an `Option` (a `ValueError` in the
source is `none` here). -/
def findFrom (src : List Char) (start : Nat) : Option Nat :=
  (findSub (src.drop start)).map (· + start)

/-- The `while not found_closing` loop of `_obsidian_links`: find the next
`"]]"`, and if its position is escaped, resume searching right after it.
Fuel bounds the iterations; the position strictly grows by at least two
per round, so `src.length + 1` fuel is always sufficient. -/
def findTerminator (src : List Char) : Nat → Nat → Option Nat
  | 0, _ => none
  | fuel + 1, pos =>
    match findFrom src pos with
    | none => none
    | some e =>
      if is_escaped src e 0 then findTerminator src fuel (e + 2) else some e

/-- The inline rule `_obsidian_links(state, silent)`: returns the boolean
result together with the updated state (the Python function mutates
`state` in place). -/
def obsidian_links_rule (silent : Bool) (st : StateInline) : Bool × StateInline :=
  let srcPart := st.src.drop st.pos
  if listStartsWith srcPart (strL "[[") || listStartsWith srcPart (strL "![[") then
    let preLen := 2 + (if charAt0Is srcPart '!' then 1 else 0)
    if is_escaped st.src st.pos 0 then (false, st)
    else
      match findTerminator st.src (st.src.length + 1) (st.pos + preLen) with
      | none => (false, st)
      | some e =>
        let text := (st.src.take e).drop (st.pos + preLen)
        let st1 :=
          if silent then st
          else
            { st with
              tokens := st.tokens ++
                [⟨if charAt0Is srcPart '!' then "embed_file" else "internal_link", text⟩] }
        (true, { st1 with pos := e + 2 })
  else (false, st)

/-- Modelled from the spec: the host inline tokenizer (an external
collaborator, §2/§6 of the specification) invokes the registered inline
rules at each position and, when none matches, consumes one character as
plain text.  Only the wikilink/embed rule is modelled; plain-text tokens
are omitted since only the emitted link/embed nodes matter here. -/
def inlineDriverAux : Nat → StateInline → List InlineToken
  | 0, st => st.tokens
  | fuel + 1, st =>
    if st.src.length ≤ st.pos then st.tokens
    else
      let (ok, st') := obsidian_links_rule false st
      if ok then inlineDriverAux fuel st'
      else inlineDriverAux fuel { st with pos := st.pos + 1 }

/-- Run the modelled host inline tokenizer over a whole buffer. -/
def inlineDriver (src : List Char) : List InlineToken :=
  inlineDriverAux (src.length + 1) { src := src, pos := 0, tokens := [] }

/-! ## Paragraph canonicalizer (`plugin.py` / `renderers/_paragraph.py`,
function `paragraph`, per-line guard loop) -/

/-- `separate_indent` from `_helpers.py`: split a line into its leading
whitespace run and the remainder.  The source implements this with the
regex `(?P<indent>\s*)(?P<content>[^\s]?.*)`, which on a newline-free
line (all call sites split on `"\n"` first) is exactly this split. -/
def separate_indent (l : List Char) : List Char × List Char :=
  (l.takeWhile isPySpace, l.dropWhile isPySpace)

/-- Test used by several guards: the next character is a space, a tab, or
the line ends (the regex tail `( |\t|$)`). -/
def followedBySpaceTabOrEnd : List Char → Bool
  | [] => true
  | c :: _ => isSpaceTab c

/-- Guard pattern `#{1,6}( |\t|$)`: one to six `#` then space/tab/end. -/
def matchAtxHeading (l : List Char) : Bool :=
  let n := (l.takeWhile (fun c => c = '#')).length
  1 ≤ n && n ≤ 6 && followedBySpaceTabOrEnd (l.drop n)

/-- Guard pattern `[-*+]( |\t|$)`: a bullet marker then space/tab/end. -/
def matchBullet (l : List Char) : Bool :=
  match l with
  | c :: rest => (c = '-' || c = '*' || c = '+') && followedBySpaceTabOrEnd rest
  | [] => false

/-- Guard pattern `[0-9]+X( |\t|$)` for `X` the closing `)` or `.`. -/
def matchOrderedMarker (close : Char) (l : List Char) : Bool :=
  let ds := l.takeWhile Char.isDigit
  let rest := l.dropWhile Char.isDigit
  ds ≠ [] &&
    (match rest with
     | c :: r => c = close && followedBySpaceTabOrEnd r
     | [] => false)

/-- Python `all(c == ch for c in l)` (true on the empty string). -/
def allChar (ch : Char) (l : List Char) : Bool := l.all (fun c => c = ch)

/-- Thematic-break guard: with all spaces/tabs removed, a line of three or
more repeated `*`, `-` or `_` gets its first such character escaped. -/
def thematicGuard (l : List Char) : List Char :=
  let sr := l.filter (fun c => !isSpaceTab c)
  if 3 ≤ sr.length then
    if allChar '*' sr then replaceFirstEscape '*' l
    else if allChar '-' sr then replaceFirstEscape '-' l
    else if allChar '_' sr then replaceFirstEscape '_' l
    else l
  else l

/-- Setext-heading guard: a line that strips (spaces/tabs) to only `-` or
only `=` characters gets its first such character escaped.  Python's
`all` on the empty string is true, but escaping then rewrites nothing. -/
def setextGuard (l : List Char) : List Char :=
  let s := pyStripSpaceTab l
  if allChar '-' s then replaceFirstEscape '-' l
  else if allChar '=' s then replaceFirstEscape '=' l
  else l

/-- The six escape-inserting guards of the paragraph loop, in source
order: ATX heading, block quote, bullet marker, ordered markers with `)`
and `.`, thematic break, setext heading. -/
def escapeGuards (l0 : List Char) : List Char :=
  let l1 := if matchAtxHeading l0 then '\\' :: l0 else l0
  let l2 := if charAt0Is l1 '>' then '\\' :: l1 else l1
  let l3 := if matchBullet l2 then '\\' :: l2 else l2
  let l4 := if matchOrderedMarker ')' l3 then replaceFirstEscape ')' l3 else l3
  let l5 := if matchOrderedMarker '.' l4 then replaceFirstEscape '.' l4 else l4
  let l6 := thematicGuard l5
  setextGuard l6

/-- Modelled from the spec: the registered raw-HTML block-opener patterns
(`HTML_SEQUENCES`, imported by the source from the host markdown parser,
an external collaborator; §4.6/§6 of the specification).  Each entry is
a `^`-anchored pattern searched against the line, so it can only match at
the line start.  Tag-name matching is case-insensitive. -/
def scriptLikeNames : List (List Char) :=
  [strL "script", strL "pre", strL "style", strL "textarea"]

/-- Modelled from the spec: the CommonMark block-level tag names used by
the sixth raw-HTML opener pattern of the host parser. -/
def blockNames : List (List Char) :=
  [strL "address", strL "article", strL "aside", strL "base", strL "basefont",
   strL "blockquote", strL "body", strL "caption", strL "center", strL "col",
   strL "colgroup", strL "dd", strL "details", strL "dialog", strL "dir",
   strL "div", strL "dl", strL "dt", strL "fieldset", strL "figcaption",
   strL "figure", strL "footer", strL "form", strL "frame", strL "frameset",
   strL "h1", strL "h2", strL "h3", strL "h4", strL "h5", strL "h6",
   strL "head", strL "header", strL "hr", strL "html", strL "iframe",
   strL "legend", strL "li", strL "link", strL "main", strL "menu",
   strL "menuitem", strL "nav", strL "noframes", strL "ol", strL "optgroup",
   strL "option", strL "p", strL "param", strL "section", strL "source",
   strL "summary", strL "table", strL "tbody", strL "td", strL "tfoot",
   strL "th", strL "thead", strL "title", strL "tr", strL "track", strL "ul"]

/-- Lookahead `(?=(\s|>|$))` after a script-like tag name. -/
def lookaheadSpaceGtEnd : List Char → Bool
  | [] => true
  | c :: _ => isPySpace c || c = '>'

/-- Lookahead `(?=(\s|/?>|$))` after a block-level tag name. -/
def lookaheadBlockTag : List Char → Bool
  | [] => true
  | '/' :: '>' :: _ => true
  | c :: _ => isPySpace c || c = '>'

/-- Does some name in `names` match case-insensitively at the start of
`l`, followed by the given lookahead? -/
def matchTagFrom (names : List (List Char)) (look : List Char → Bool)
    (l : List Char) : Bool :=
  names.any (fun nm => listStartsWith (lowerList l) nm && look (l.drop nm.length))

/-- Opener 1: `^<(script|pre|style|textarea)(?=(\s|>|$))`, IGNORECASE. -/
def htmlSeq1 (l : List Char) : Bool :=
  charAt0Is l '<' && matchTagFrom scriptLikeNames lookaheadSpaceGtEnd (l.drop 1)

/-- Opener 2: `^<!--`. -/
def htmlSeq2 (l : List Char) : Bool := listStartsWith l (strL "<!--")

/-- Opener 3: `^<\?`. -/
def htmlSeq3 (l : List Char) : Bool := listStartsWith l (strL "<?")

/-- Opener 4: `^<![A-Z]`. -/
def htmlSeq4 (l : List Char) : Bool :=
  charAt0Is l '<' && charAt0Is (l.drop 1) '!' &&
    (match l.drop 2 with
     | c :: _ => c.isUpper
     | [] => false)

/-- Opener 5: `^<!\[CDATA\[`. -/
def htmlSeq5 (l : List Char) : Bool := listStartsWith l (strL "<![CDATA[")

/-- Opener 6: `^</?(blockName)(?=(\s|/?>|$))`, IGNORECASE. -/
def htmlSeq6 (l : List Char) : Bool :=
  charAt0Is l '<' &&
    (let rest := l.drop 1
     let rest2 := if charAt0Is rest '/' then rest.drop 1 else rest
     matchTagFrom blockNames lookaheadBlockTag rest2)

/-- Does the line match a raw-HTML block opener that is flagged as
paragraph-interrupting?  The seventh host pattern (the full open/close
tag pattern) carries flag `False` and is never consulted by the loop, so
it is omitted; the loop prefixes the line on the first flagged match,
which is equivalent to this disjunction. -/
def htmlFlaggedMatch (l : List Char) : Bool :=
  htmlSeq1 l || htmlSeq2 l || htmlSeq3 l || htmlSeq4 l || htmlSeq5 l || htmlSeq6 l

/-- One iteration of the paragraph guard loop (`plugin.py` lines 100–159):
right-strip the line, split off the leading indent, run the six
escape-inserting guards and then the raw-HTML guard on the content, and
re-prepend the indent. -/
def processLine (l : List Char) : List Char :=
  let r := pyRstrip l
  let ind := r.takeWhile isPySpace
  let rest := r.dropWhile isPySpace
  let g := escapeGuards rest
  let g2 := if htmlFlaggedMatch g then strL "    " ++ g else g
  ind ++ g2

/-- The guard phase of the paragraph renderer: split the rendered inline
text on newlines, process each line, and re-join.  The preceding steps of
`paragraph` (word wrap and whitespace re-decimalification) belong to the
external host renderer and are the identity on the concrete inputs the
claims exercise; this function takes their output as its argument. -/
def paragraphCore (text : List Char) : List Char :=
  joinLines ((splitLines text).map processLine)

/-! ## Callout block scanner (`mdit_plugins/_obsidian_callouts.py`) -/

/-- `OBSIDIAN_CALLOUT_PREFIX` from the source ("prefix used to
differentiate the parsed output"); renamed here for the token scanner. -/
def obsidianCalloutName : String := "obsidian_callout"

/-- `INLINE_SEP` from the source: the internal separator between the
callout header fields and the custom title inside `markup`. -/
def inlineSep : List Char := ['\n', '\n']

/-- `CalloutState` (NamedTuple): frozen parser state. -/
structure CalloutState where
  parentType : String
  lineMax : Nat
deriving DecidableEq, Repr

/-- `CalloutData` (NamedTuple): data for rendering a matched callout. -/
structure CalloutData where
  old_state : CalloutState
  meta_text : List Char
  fold : List Char
  custom_title : List Char
  next_line : Nat
deriving DecidableEq, Repr

/-- One token of the host block parser's token stream. -/
structure BlockToken where
  ttype : String
  tag : String
  nesting : Int
  attrs : List (String × String)
  block : Bool
  tmap : Option (Nat × Nat)
  markup : List Char
  content : List Char
deriving DecidableEq, Repr

/-- A plain `state.push`-style token with only type, tag and nesting. -/
def mkSimpleToken (ttype tag : String) (nesting : Int) : BlockToken :=
  { ttype := ttype, tag := tag, nesting := nesting, attrs := [], block := false,
    tmap := none, markup := [], content := [] }

/-- The block parser state fields the callout scanner touches. -/
structure StateBlock where
  parentType : String
  lineMax : Nat
  line : Nat
  tokens : List BlockToken
deriving DecidableEq, Repr

/-- `state.push`: append a token to the stream. -/
def pushToken (st : StateBlock) (t : BlockToken) : StateBlock :=
  { st with tokens := st.tokens ++ [t] }

/-- The optional `(?: |<br>)[^\n]+` custom-title group of the callout
header pattern (IGNORECASE applies to `<br>`): a space or a `<br>`
followed by at least one non-newline character; the capture includes the
leading space or `<br>` text.  An absent group is the empty string
(`match["custom_title"] or ""` in the source). -/
def matchCustomTitle (l : List Char) : List Char :=
  match l with
  | ' ' :: rest =>
    let run := rest.takeWhile (fun c => c ≠ '\n')
    if run = [] then [] else ' ' :: run
  | _ =>
    if lowerList (l.take 4) = strL "<br>" then
      let run := (l.drop 4).takeWhile (fun c => c ≠ '\n')
      if run = [] then [] else l.take 4 ++ run
    else []

/-- The callout header pattern
`^\\?\[!(?P<title>[^\]]+)\\?\](?P<fold>[\-\+]?)` followed by the optional
custom-title group, IGNORECASE, matched against the remaining source
text.  Returns `(title, fold, custom_title)` on a match.  The greedy
`[^\]]+` makes the title the run of non-`]` characters (which absorbs an
optional backslash before the `]`), so a match needs a nonempty such run
followed by a `]`. -/
def matchCallout (text : List Char) : Option (List Char × List Char × List Char) :=
  let t0 := if listStartsWith text (strL "\\[!") then text.drop 1 else text
  if listStartsWith t0 (strL "[!") then
    let afterBang := t0.drop 2
    let title := afterBang.takeWhile (fun c => c ≠ ']')
    let rest := afterBang.dropWhile (fun c => c ≠ ']')
    if title = [] then none
    else
      match rest with
      | ']' :: r1 =>
        let foldRest : List Char × List Char :=
          match r1 with
          | '-' :: r => (['-'], r)
          | '+' :: r => (['+'], r)
          | r => ([], r)
        some (title, foldRest.1, matchCustomTitle foldRest.2)
      | _ => none
  else none

/-- Result of `parse_possible_blockquote_admon`: `False`, `True` (silent
match) or a `CalloutData`. -/
inductive ParseResult where
  | noMatch
  | silentMatch
  | matched (d : CalloutData)
deriving DecidableEq, Repr

/-- `parse_possible_blockquote_admon`.  `isCode` models the external
`is_code_block` predicate and `text` models `state.src[start:]` (the
line-offset computation through `bMarks`/`tShift` belongs to the host
parser).  On a non-silent match the state's `parentType` is switched to
the callout marker and the previous descriptor is saved in the returned
data. -/
def parse_possible_blockquote_admon (isCode : Bool) (text : List Char)
    (silent : Bool) (st : StateBlock) (end_line : Nat) :
    ParseResult × StateBlock :=
  if isCode then (.noMatch, st)
  else
    match matchCallout text with
    | none => (.noMatch, st)
    | some (title, fold, custom) =>
      if silent then (.silentMatch, st)
      else
        let old : CalloutState := ⟨st.parentType, st.lineMax⟩
        (.matched ⟨old, title, fold, custom, end_line⟩,
         { st with parentType := obsidianCalloutName })

/-- The `markup` string synthesized for a callout node:
`f"[!{tag}]{fold}{INLINE_SEP}{custom_title}"` with `tag` the lowercased
kind. -/
def calloutMarkup (tag fold custom : List Char) : List Char :=
  strL "[!" ++ tag ++ strL "]" ++ fold ++ inlineSep ++ custom

/-- `format_obsidian_callout_markup`: emit the callout token tree and
update the scanner state.  `tokenize` models the host block tokenizer
(`state.md.block.tokenize`), called over `(start_line + 1, next_line)`.
After emission the source sets `parentType` to the literal `"div"` (the
saved value is in a trailing comment, not restored), restores the saved
`lineMax`, and advances `line` to `next_line`. -/
def format_obsidian_callout_markup (tokenize : StateBlock → Nat → Nat → StateBlock)
    (st : StateBlock) (start_line : Nat) (admonition : CalloutData) : StateBlock :=
  let tag := lowerList admonition.meta_text
  let folded := admonition.fold ≠ []
  let title_line := calloutMarkup tag admonition.fold admonition.custom_title
  let calloutOpen : BlockToken :=
    { ttype := obsidianCalloutName ++ "_open", tag := "div", nesting := 1,
      attrs := [("data-callout-metadata", ""),
                ("data-callout-fold", if folded then "-" else ""),
                ("data-callout", String.mk tag),
                ("class", if folded then "callout is-collapsible is-collapsed"
                          else "callout")],
      block := true, tmap := some (start_line, admonition.next_line),
      markup := title_line, content := [] }
  let st := pushToken st calloutOpen
  let st := pushToken st
    { mkSimpleToken (obsidianCalloutName ++ "_title_open") "div" 1 with
      attrs := [("class", "callout-title")] }
  let st := pushToken st
    { mkSimpleToken (obsidianCalloutName ++ "_title_inner_open") "div" 1 with
      attrs := [("class", "callout-title-inner")] }
  let st := pushToken st
    { mkSimpleToken "inline" "" 0 with
      content := pyStripSpaceTab admonition.custom_title }
  let st := pushToken st (mkSimpleToken (obsidianCalloutName ++ "_title_inner_close") "div" (-1))
  let st :=
    if folded then
      let st := pushToken st
        { mkSimpleToken (obsidianCalloutName ++ "_collapsed_open") "div" 1 with
          attrs := [("class", "callout-fold is-collapsed")] }
      pushToken st (mkSimpleToken (obsidianCalloutName ++ "_collapsed_close") "div" (-1))
    else st
  let st := pushToken st (mkSimpleToken (obsidianCalloutName ++ "_title_close") "div" (-1))
  let st := pushToken st
    { mkSimpleToken (obsidianCalloutName ++ "_content_open") "div" 1 with
      attrs := [("class", "callout-content")] ++
        (if folded then [("style", "display: none;")] else []) }
  let st := tokenize st (start_line + 1) admonition.next_line
  let st := pushToken st (mkSimpleToken (obsidianCalloutName ++ "_content_close") "div" (-1))
  let st := pushToken st (mkSimpleToken (obsidianCalloutName ++ "_close") "div" (-1))
  { st with
    parentType := "div",
    lineMax := admonition.old_state.lineMax,
    line := admonition.next_line }

/-- `alert_logic`: run the parse, and when it yields `CalloutData`, run
the emission. -/
def alert_logic (tokenize : StateBlock → Nat → Nat → StateBlock) (isCode : Bool)
    (text : List Char) (st : StateBlock) (startLine end_line : Nat)
    (silent : Bool) : Bool × StateBlock :=
  match parse_possible_blockquote_admon isCode text silent st end_line with
  | (.matched d, st') => (true, format_obsidian_callout_markup tokenize st' startLine d)
  | (.silentMatch, st') => (true, st')
  | (.noMatch, st') => (false, st')

/-! ## Render tree and renderers (`plugin.py`, `RENDERERS`) -/

/-- A node of the render tree (`RenderTreeNode`): type, raw content,
markup, and children.  Attributes and positions are irrelevant to the
renderers modelled here and are omitted. -/
inductive Node where
  | mk (ntype : String) (content : List Char) (markup : List Char)
       (children : List Node)

/-- Node type accessor. -/
def Node.ntype : Node → String
  | .mk t _ _ _ => t

/-- Node content accessor. -/
def Node.content : Node → List Char
  | .mk _ c _ _ => c

/-- Node markup accessor. -/
def Node.markup : Node → List Char
  | .mk _ _ m _ => m

/-- Node children accessor. -/
def Node.children : Node → List Node
  | .mk _ _ _ ch => ch

/-- Python `markup.replace(INLINE_SEP, "")`: remove the non-overlapping
occurrences of `"\n\n"`, left to right. -/
def removeSep : List Char → List Char
  | '\n' :: '\n' :: rest => removeSep rest
  | c :: rest => c :: removeSep rest
  | [] => []

/-- Python `"\n\n".join(elements)`. -/
def joinBlank : List (List Char) → List Char
  | [] => []
  | [l] => l
  | l :: ls => l ++ '\n' :: '\n' :: joinBlank ls

/-- Keep the renders that are non-empty (Python's truthiness filter in
`[render for child in node.children if (render := child.render(context))]`). -/
def filterNonEmpty (ls : List (List Char)) : List (List Char) :=
  ls.filter (fun l => l ≠ [])

mutual

/-- The tree render dispatch driven by the `RENDERERS` table, for the
node kinds this core owns: the callout renderer
(`_render_obsidian_callout`), the empty renderers of the title /
title-inner / fold containers (`_no_render`), the content container
(`_recursive_render`), the wikilink and embed leaf renderers, and `hr`.
Node kinds owned by excluded collaborators fall through to their raw
content (a generic pass-through leaf). -/
def renderNode : Node → List Char
  | .mk t c m ch =>
    if t = obsidianCalloutName then
      pyRstrip (removeSep m ++ '\n' :: joinBlank (filterNonEmpty (renderList ch)))
    else if t = obsidianCalloutName ++ "_title" then []
    else if t = obsidianCalloutName ++ "_title_inner" then []
    else if t = obsidianCalloutName ++ "_collapsed" then []
    else if t = obsidianCalloutName ++ "_content" then
      pyRstrip (joinBlank (filterNonEmpty (renderList ch)))
    else if t = "internal_link" then strL "[[" ++ c ++ strL "]]"
    else if t = "embed_file" then strL "![[" ++ c ++ strL "]]"
    else if t = "hr" then strL "---"
    else c

/-- Render a list of children in document order. -/
def renderList : List Node → List (List Char)
  | [] => []
  | n :: ns => renderNode n :: renderList ns

end

/-! ## Ordered-list numbering (`plugin.py` / `renderers/_ordered_list.py`,
function `ordered_list`) -/

/-- `" " * (2 * int(node.level > 0))`: secondary indentation for nested
lists. -/
def listPreIndent (level : Nat) : List Char :=
  if 0 < level then [' ', ' '] else []

/-- `starting_number`: the node's `start` attribute, defaulting to 1 when
absent.  The host parser only produces non-negative starts. -/
def orderedListStart (startAttr : Option Nat) : Nat := startAttr.getD 1

/-- `pad = len(str(list_len + starting_number - 1))`. -/
def ordered_pad (list_len starting_number : Nat) : Nat :=
  (natDigits (list_len + starting_number - 1)).length

/-- `str(number).rjust(pad, "0")` with `number = starting_number +
list_item_index`: the zero-padded marker number of one list item. -/
def ordered_item_number (list_len starting_number idx : Nat) : List Char :=
  rjust '0' (ordered_pad list_len starting_number)
    (natDigits (starting_number + idx))

/-- `number_str = pre_indent + str(number).rjust(pad, "0")`. -/
def ordered_number_str (level list_len starting_number idx : Nat) : List Char :=
  listPreIndent level ++ ordered_item_number list_len starting_number idx

/-- Remove the first backslash of a line: the claim-side notion of
"the escaped output un-escaped exactly once". -/
def removeFirstBackslash : List Char → List Char
  | [] => []
  | '\\' :: rest => rest
  | c :: rest => c :: removeFirstBackslash rest

end MdformatObsidian

namespace MdformatObsidian

/-! ## Supporting lemmas on decimal digit strings -/

/-- One unfolding step of the fuelled digit function. -/
theorem natDigitsAux_succ (fuel n : Nat) :
    natDigitsAux (fuel + 1) n = if n < 10 then [Nat.digitChar n]
      else natDigitsAux fuel (n / 10) ++ [Nat.digitChar (n % 10)] := rfl

/-- The fuel is irrelevant once it exceeds the argument. -/
theorem natDigitsAux_irrel : ∀ (f1 f2 n : Nat), n < f1 → n < f2 →
    natDigitsAux f1 n = natDigitsAux f2 n := by
  intro f1
  induction f1 with
  | zero => intro f2 n h1 _; omega
  | succ g ih =>
    intro f2 n h1 h2
    cases f2 with
    | zero => omega
    | succ k =>
      by_cases h : n < 10
      · simp [natDigitsAux_succ, h]
      · have hd : n / 10 < n := Nat.div_lt_self (by omega) (by omega)
        rw [natDigitsAux_succ, natDigitsAux_succ, if_neg h, if_neg h]
        rw [ih k (n / 10) (by omega) (by omega)]

/-- Recurrence for `natDigits`. -/
theorem natDigits_unfold (n : Nat) :
    natDigits n = if n < 10 then [Nat.digitChar n]
      else natDigits (n / 10) ++ [Nat.digitChar (n % 10)] := by
  rw [natDigits, natDigitsAux_succ]
  by_cases h : n < 10
  · simp [h]
  · have hd : n / 10 < n := Nat.div_lt_self (by omega) (by omega)
    rw [if_neg h, if_neg h]
    congr 1
    rw [natDigits]
    exact natDigitsAux_irrel n (n / 10 + 1) (n / 10) (by omega) (by omega)

/-- Decimal length is monotone in the number. -/
theorem natDigits_length_mono : ∀ (n m : Nat), m ≤ n →
    (natDigits m).length ≤ (natDigits n).length := by
  intro n
  induction n using Nat.strong_induction_on with
  | _ n ih =>
    intro m hmn
    rw [natDigits_unfold n, natDigits_unfold m]
    by_cases hn : n < 10
    · simp [show m < 10 by omega, hn]
    · by_cases hm : m < 10
      · simp [hm, if_neg hn]
      · simp only [if_neg hn, if_neg hm, List.length_append, List.length_cons,
          List.length_nil]
        have hd : n / 10 < n := Nat.div_lt_self (by omega) (by omega)
        have := ih (n / 10) hd (m / 10) (Nat.div_le_div_right hmn)
        omega

/-- Numeric value of a digit character. -/
theorem digitChar_val (d : Nat) (h : d < 10) :
    (Nat.digitChar d).toNat - '0'.toNat = d := by
  interval_cases d <;> rfl

/-- Folding the digit accumulator over `natDigits n` from `a`. -/
theorem foldl_natDigits (n : Nat) : ∀ (a : Nat),
    List.foldl (fun a c => a * 10 + (c.toNat - '0'.toNat)) a (natDigits n)
      = a * 10 ^ (natDigits n).length + n := by
  induction n using Nat.strong_induction_on with
  | _ n ih =>
    intro a
    by_cases h : n < 10
    · rw [natDigits_unfold n, if_pos h]
      simp only [List.foldl_cons, List.foldl_nil, List.length_cons, List.length_nil]
      rw [digitChar_val n h]
      ring
    · have hd : n / 10 < n := Nat.div_lt_self (by omega) (by omega)
      rw [natDigits_unfold n, if_neg h, List.foldl_append]
      simp only [List.foldl_cons, List.foldl_nil, List.length_append,
        List.length_cons, List.length_nil]
      rw [ih (n / 10) hd a, digitChar_val (n % 10) (by omega)]
      have hdm : n / 10 * 10 + n % 10 = n := by omega
      calc (a * 10 ^ (natDigits (n / 10)).length + n / 10) * 10 + n % 10
          = a * (10 ^ (natDigits (n / 10)).length * 10)
              + (n / 10 * 10 + n % 10) := by ring
        _ = a * 10 ^ ((natDigits (n / 10)).length + 1) + n := by
            rw [hdm, pow_succ]

/-- Reading back the decimal representation gives the number. -/
theorem digitsToNat_natDigits (n : Nat) : digitsToNat (natDigits n) = n := by
  have := foldl_natDigits n 0
  simpa [digitsToNat] using this

/-- A run of zeros keeps the accumulator at zero. -/
theorem foldl_zeros (k : Nat) :
    List.foldl (fun a c => a * 10 + (c.toNat - '0'.toNat)) 0
      (List.replicate k '0') = 0 := by
  induction k with
  | zero => rfl
  | succ j ih =>
    rw [List.replicate_succ, List.foldl_cons]
    convert ih using 2

/-- Zero-padding does not change the numeric value. -/
theorem digitsToNat_rjust_zero (w : Nat) (l : List Char) :
    digitsToNat (rjust '0' w l) = digitsToNat l := by
  unfold digitsToNat rjust
  rw [List.foldl_append, foldl_zeros]

/-- Length of a right-justified string. -/
theorem rjust_length (c : Char) (w : Nat) (l : List Char) :
    (rjust c w l).length = max w l.length := by
  simp [rjust]
  omega

/-! ## Supporting lemmas on the callout markup separator -/

/-- Removing the separator consumes a leading double newline. -/
theorem removeSep_double (l : List Char) :
    removeSep ('\n' :: '\n' :: l) = removeSep l := rfl

/-- Removing the separator passes over a non-newline head. -/
theorem removeSep_cons_ne (x : Char) (l : List Char) (h : x ≠ '\n') :
    removeSep (x :: l) = x :: removeSep l := by
  rw [removeSep.eq_def]
  split
  · next rest heq =>
    rw [List.cons.injEq] at heq
    exact absurd heq.1 h
  · next c rest heq =>
    rw [List.cons.injEq] at heq
    rw [heq.1, heq.2]
  · next heq => exact absurd heq (by simp)

/-- A newline-free string is unchanged by separator removal. -/
theorem removeSep_no_nl (b : List Char) (h : '\n' ∉ b) : removeSep b = b := by
  induction b with
  | nil => rfl
  | cons x xs ih =>
    have hx : x ≠ '\n' := by
      intro hxe; exact h (hxe ▸ List.mem_cons_self x xs)
    rw [removeSep_cons_ne x xs hx, ih (fun hm => h (List.mem_cons_of_mem x hm))]

/-- Removing the separator from `a ++ SEP ++ b` with newline-free `a` and
`b` yields `a ++ b`. -/
theorem removeSep_append_sep (a b : List Char) (ha : '\n' ∉ a) (hb : '\n' ∉ b) :
    removeSep (a ++ '\n' :: '\n' :: b) = a ++ b := by
  induction a with
  | nil => simpa using removeSep_no_nl b hb
  | cons x xs ih =>
    have hx : x ≠ '\n' := by
      intro hxe; exact ha (hxe ▸ List.mem_cons_self x xs)
    rw [List.cons_append, removeSep_cons_ne x _ hx,
      ih (fun hm => ha (List.mem_cons_of_mem x hm)), List.cons_append]

/-- `renderList` is the pointwise render of the children. -/
theorem renderList_eq_map (l : List Node) : renderList l = l.map renderNode := by
  induction l with
  | nil => rfl
  | cons n ns ih => rw [renderList, ih, List.map_cons]

/-! ## Supporting lemmas on the paragraph guards -/

/-- Unfolding `listStartsWith` on two cons cells. -/
theorem listStartsWith_cons (c : Char) (t : List Char) (p : Char) (ps : List Char) :
    listStartsWith (c :: t) (p :: ps) = ((c = p) && listStartsWith t ps) := rfl

/-- A matched prefix fixes the first character. -/
theorem startsWith_head (l : List Char) (p : Char) (ps : List Char)
    (h : listStartsWith l (p :: ps) = true) : charAt0Is l p = true := by
  cases l with
  | nil => simp [listStartsWith] at h
  | cons c t =>
    rw [listStartsWith_cons, Bool.and_eq_true] at h
    simpa [charAt0Is] using h.1

/-- Every paragraph-interrupting raw-HTML opener begins with `<`. -/
theorem htmlFlaggedMatch_head (l : List Char) (h : htmlFlaggedMatch l = true) :
    ∃ t, l = '<' :: t := by
  have hlt : charAt0Is l '<' = true := by
    rw [htmlFlaggedMatch] at h
    simp only [Bool.or_eq_true] at h
    rcases h with ((((h1 | h2) | h3) | h4) | h5) | h6
    · rw [htmlSeq1, Bool.and_eq_true] at h1
      exact h1.1
    · exact startsWith_head l '<' (strL "!--") h2
    · exact startsWith_head l '<' (strL "?") h3
    · rw [htmlSeq4, Bool.and_eq_true, Bool.and_eq_true] at h4
      exact h4.1.1
    · exact startsWith_head l '<' (strL "![CDATA[") h5
    · rw [htmlSeq6, Bool.and_eq_true] at h6
      exact h6.1
  cases l with
  | nil => simp [charAt0Is] at hlt
  | cons c t =>
    have hc : c = '<' := by simpa [charAt0Is] using hlt
    exact ⟨t, by rw [hc]⟩

/-- A character that fails the predicate survives a following `dropWhile`
over any prefix. -/
theorem mem_dropWhile_of_last (p : Char → Bool) (c : Char) (hc : p c = false) :
    ∀ (l : List Char), c ∈ List.dropWhile p (l ++ [c]) := by
  intro l
  induction l with
  | nil => simp [List.dropWhile, hc]
  | cons a as ih =>
    by_cases ha : p a
    · simpa [List.dropWhile_cons_of_pos ha] using ih
    · simp [List.dropWhile_cons_of_neg ha]

/-- A non-space head survives the space/tab strip. -/
theorem mem_stripSpaceTab_head (c : Char) (t : List Char) (hc : isSpaceTab c = false) :
    c ∈ pyStripSpaceTab (c :: t) := by
  rw [pyStripSpaceTab, List.dropWhile_cons_of_neg (by simp [hc])]
  rw [List.mem_reverse]
  have hrev : (c :: t).reverse = t.reverse ++ [c] := by simp
  rw [hrev]
  exact mem_dropWhile_of_last isSpaceTab c hc t.reverse

/-- A foreign member refutes an all-one-character test. -/
theorem allChar_false_of_mem (ch x : Char) (l : List Char) (hx : x ∈ l)
    (hne : x ≠ ch) : allChar ch l = false := by
  cases hall : allChar ch l with
  | false => rfl
  | true =>
    rw [allChar, List.all_eq_true] at hall
    have := hall x hx
    simp at this
    exact absurd this hne

/-- The thematic-break guard ignores a line starting with `<`. -/
theorem thematicGuard_lt (t : List Char) : thematicGuard ('<' :: t) = '<' :: t := by
  rw [thematicGuard]
  have hsr : List.filter (fun c => !isSpaceTab c) ('<' :: t)
      = '<' :: List.filter (fun c => !isSpaceTab c) t :=
    List.filter_cons_of_pos (by decide)
  rw [hsr]
  have hmem : '<' ∈ '<' :: List.filter (fun c => !isSpaceTab c) t :=
    List.mem_cons_self _ _
  rw [allChar_false_of_mem '*' '<' _ hmem (by decide),
    allChar_false_of_mem '-' '<' _ hmem (by decide),
    allChar_false_of_mem '_' '<' _ hmem (by decide)]
  simp

/-- The setext guard ignores a line starting with `<`. -/
theorem setextGuard_lt (t : List Char) : setextGuard ('<' :: t) = '<' :: t := by
  rw [setextGuard]
  have hmem : '<' ∈ pyStripSpaceTab ('<' :: t) :=
    mem_stripSpaceTab_head '<' t (by decide)
  rw [allChar_false_of_mem '-' '<' _ hmem (by decide),
    allChar_false_of_mem '=' '<' _ hmem (by decide)]
  simp

/-- None of the escape-inserting guards touches a line starting with `<`,
so a raw-HTML opener line reaches the HTML guard unmodified. -/
theorem escapeGuards_lt (t : List Char) : escapeGuards ('<' :: t) = '<' :: t := by
  rw [escapeGuards]
  have h1 : matchAtxHeading ('<' :: t) = false := by
    rw [matchAtxHeading, List.takeWhile_cons_of_neg (by decide)]
    simp
  have h2 : charAt0Is ('<' :: t) '>' = false := by simp [charAt0Is]
  have h3 : matchBullet ('<' :: t) = false := by
    rw [matchBullet]
    simp
  have h4 : ∀ close, matchOrderedMarker close ('<' :: t) = false := by
    intro close
    rw [matchOrderedMarker, List.takeWhile_cons_of_neg (by decide)]
    simp
  simp only [h1, h2, h3, h4, if_neg, Bool.false_eq_true, if_false]
  rw [thematicGuard_lt, setextGuard_lt]

/-- `replaceFirstEscape` returns the empty string only for it. -/
theorem replaceFirstEscape_eq_nil (c : Char) (l : List Char) :
    replaceFirstEscape c l = [] ↔ l = [] := by
  cases l with
  | nil => simp [replaceFirstEscape]
  | cons x xs =>
    rw [replaceFirstEscape]
    constructor
    · intro h
      by_cases hx : x = c <;> simp [hx] at h
    · intro h
      exact absurd h (by simp)

/-- Inserting an escape preserves the final character. -/
theorem replaceFirstEscape_getLast (c : Char) (l : List Char) :
    (replaceFirstEscape c l).getLast? = l.getLast? := by
  induction l with
  | nil => rfl
  | cons x xs ih =>
    rw [replaceFirstEscape]
    by_cases hx : x = c
    · rw [if_pos hx, List.getLast?_cons_cons]
    · rw [if_neg hx]
      cases hxs : replaceFirstEscape c xs with
      | nil =>
        rw [(replaceFirstEscape_eq_nil c xs).mp hxs]
      | cons y ys =>
        have hne : xs ≠ [] := by
          intro he
          rw [he] at hxs
          exact absurd hxs (by simp [replaceFirstEscape])
        obtain ⟨z, zs, rfl⟩ := List.exists_cons_of_ne_nil hne
        rw [List.getLast?_cons_cons, List.getLast?_cons_cons, ← hxs]
        exact ih

/-- Prepending preserves the final character of a nonempty string. -/
theorem cons_getLast_ne_nil (x : Char) (l : List Char) (h : l ≠ []) :
    (x :: l).getLast? = l.getLast? := by
  obtain ⟨z, zs, rfl⟩ := List.exists_cons_of_ne_nil h
  exact List.getLast?_cons_cons

/-- The thematic guard preserves the final character and emptiness. -/
theorem thematicGuard_getLast (l : List Char) :
    (thematicGuard l).getLast? = l.getLast? ∧
    (thematicGuard l = [] ↔ l = []) := by
  rw [thematicGuard]
  split
  · split
    · exact ⟨replaceFirstEscape_getLast _ _, replaceFirstEscape_eq_nil _ _⟩
    · split
      · exact ⟨replaceFirstEscape_getLast _ _, replaceFirstEscape_eq_nil _ _⟩
      · split
        · exact ⟨replaceFirstEscape_getLast _ _, replaceFirstEscape_eq_nil _ _⟩
        · exact ⟨rfl, Iff.rfl⟩
  · exact ⟨rfl, Iff.rfl⟩

/-- The setext guard preserves the final character and emptiness. -/
theorem setextGuard_getLast (l : List Char) :
    (setextGuard l).getLast? = l.getLast? ∧
    (setextGuard l = [] ↔ l = []) := by
  rw [setextGuard]
  split
  · exact ⟨replaceFirstEscape_getLast _ _, replaceFirstEscape_eq_nil _ _⟩
  · split
    · exact ⟨replaceFirstEscape_getLast _ _, replaceFirstEscape_eq_nil _ _⟩
    · exact ⟨rfl, Iff.rfl⟩

/-- The six escape-inserting guards preserve the final character of a
nonempty line and never empty it. -/
theorem escapeGuards_getLast (l : List Char) (h : l ≠ []) :
    (escapeGuards l).getLast? = l.getLast? ∧ escapeGuards l ≠ [] := by
  rw [escapeGuards]
  have step : ∀ (m : List Char), m ≠ [] →
      ∀ (b : Bool), ((if b then '\\' :: m else m).getLast? = m.getLast?
        ∧ (if b then '\\' :: m else m) ≠ []) := by
    intro m hm b
    cases b with
    | false => exact ⟨rfl, hm⟩
    | true => exact ⟨cons_getLast_ne_nil '\\' m hm, by simp⟩
  have stepR : ∀ (c : Char) (m : List Char), m ≠ [] →
      ∀ (b : Bool), ((if b then replaceFirstEscape c m else m).getLast? = m.getLast?
        ∧ (if b then replaceFirstEscape c m else m) ≠ []) := by
    intro c m hm b
    cases b with
    | false => exact ⟨rfl, hm⟩
    | true =>
      refine ⟨replaceFirstEscape_getLast c m, ?_⟩
      intro he
      exact hm ((replaceFirstEscape_eq_nil c m).mp he)
  obtain ⟨e1, n1⟩ := step l h (matchAtxHeading l)
  obtain ⟨e2, n2⟩ := step _ n1 (charAt0Is (if matchAtxHeading l then '\\' :: l else l) '>')
  obtain ⟨e3, n3⟩ := step _ n2 (matchBullet _)
  obtain ⟨e4, n4⟩ := stepR ')' _ n3 (matchOrderedMarker ')' _)
  obtain ⟨e5, n5⟩ := stepR '.' _ n4 (matchOrderedMarker '.' _)
  obtain ⟨e6, n6⟩ := thematicGuard_getLast _
  obtain ⟨e7, n7⟩ := setextGuard_getLast _
  constructor
  · rw [e7, e6, e5, e4, e3, e2, e1]
  · intro he
    exact n5 (n6.mp (n7.mp he))

/-- The head of a `dropWhile` result fails the predicate. -/
theorem head_dropWhile (p : Char → Bool) (l : List Char) (c : Char)
    (h : (l.dropWhile p).head? = some c) : p c = false := by
  induction l with
  | nil => simp [List.dropWhile] at h
  | cons a as ih =>
    by_cases ha : p a
    · rw [List.dropWhile_cons_of_pos ha] at h
      exact ih h
    · rw [List.dropWhile_cons_of_neg ha] at h
      simp at h
      rw [← h]
      exact Bool.eq_false_iff.mpr ha

/-- A right-stripped line never ends in whitespace. -/
theorem pyRstrip_getLast (l : List Char) (c : Char)
    (h : (pyRstrip l).getLast? = some c) : isPySpace c = false := by
  rw [pyRstrip, List.getLast?_reverse] at h
  exact head_dropWhile isPySpace l.reverse c h

/-- The last element is a member. -/
theorem mem_of_getLast?_some : ∀ (l : List Char) (c : Char),
    l.getLast? = some c → c ∈ l := by
  intro l
  induction l with
  | nil => intro c h; simp at h
  | cons a as ih =>
    intro c h
    cases as with
    | nil =>
      simp at h
      rw [h]
      exact List.mem_cons_self c []
    | cons z zs =>
      rw [List.getLast?_cons_cons] at h
      exact List.mem_cons_of_mem a (ih c h)

/-- The indent prefix and the optional 4-space HTML prefix do not change
the final character. -/
theorem getLast_guard_chain (ind g : List Char) (hg : g ≠ []) (b : Bool) :
    (ind ++ (if b then strL "    " ++ g else g)).getLast? = g.getLast? := by
  cases b with
  | false => exact List.getLast?_append_of_ne_nil ind hg
  | true =>
    have h4 : strL "    " ++ g ≠ [] := by simp [hg]
    rw [if_pos rfl]
    rw [List.getLast?_append_of_ne_nil ind h4, List.getLast?_append_of_ne_nil _ hg]

/-- Core of the trailing-whitespace invariant, stated over the
right-stripped line. -/
theorem guarded_last_key (r : List Char)
    (hws : ∀ c, r.getLast? = some c → isPySpace c = false) :
    (r.takeWhile isPySpace ++
      (if htmlFlaggedMatch (escapeGuards (r.dropWhile isPySpace))
       then strL "    " ++ escapeGuards (r.dropWhile isPySpace)
       else escapeGuards (r.dropWhile isPySpace))).getLast? ≠ some ' ' ∧
    (r.takeWhile isPySpace ++
      (if htmlFlaggedMatch (escapeGuards (r.dropWhile isPySpace))
       then strL "    " ++ escapeGuards (r.dropWhile isPySpace)
       else escapeGuards (r.dropWhile isPySpace))).getLast? ≠ some '\t' := by
  by_cases hr : r = []
  · rw [hr]
    constructor <;> decide
  · have hrest : r.dropWhile isPySpace ≠ [] := by
      intro hempty
      rw [List.dropWhile_eq_nil_iff] at hempty
      obtain ⟨c, hc⟩ : ∃ c, r.getLast? = some c := by
        cases hl : r.getLast? with
        | none => exact absurd (List.getLast?_eq_none_iff.mp hl) hr
        | some c => exact ⟨c, rfl⟩
      have := hempty c (mem_of_getLast?_some r c hc)
      rw [hws c hc] at this
      exact absurd this (by decide)
    obtain ⟨eg, ng⟩ := escapeGuards_getLast (r.dropWhile isPySpace) hrest
    have hchain := getLast_guard_chain (r.takeWhile isPySpace)
      (escapeGuards (r.dropWhile isPySpace)) ng
      (htmlFlaggedMatch (escapeGuards (r.dropWhile isPySpace)))
    rw [hchain, eg]
    have hlast : (r.dropWhile isPySpace).getLast? = r.getLast? := by
      conv_rhs => rw [← List.takeWhile_append_dropWhile isPySpace r]
      rw [List.getLast?_append_of_ne_nil _ hrest]
    rw [hlast]
    obtain ⟨c, hc⟩ : ∃ c, r.getLast? = some c := by
      cases hl : r.getLast? with
      | none => exact absurd (List.getLast?_eq_none_iff.mp hl) hr
      | some c => exact ⟨c, rfl⟩
    rw [hc]
    have hcs := hws c hc
    constructor
    · intro he
      simp at he
      rw [he] at hcs
      exact absurd hcs (by decide)
    · intro he
      simp at he
      rw [he] at hcs
      exact absurd hcs (by decide)

/-- No processed paragraph line ends in a space or a tab. -/
theorem processLine_getLast (s : List Char) :
    (processLine s).getLast? ≠ some ' ' ∧ (processLine s).getLast? ≠ some '\t' := by
  rw [processLine]
  exact guarded_last_key (pyRstrip s) (pyRstrip_getLast s)

/-- Right-stripping only keeps original characters. -/
theorem pyRstrip_mem (x : Char) (l : List Char) (h : x ∈ pyRstrip l) : x ∈ l := by
  rw [pyRstrip, List.mem_reverse] at h
  have := (List.dropWhile_sublist isPySpace).mem h
  rwa [List.mem_reverse] at this

/-- Inserting an escape only adds a backslash. -/
theorem replaceFirstEscape_mem (c x : Char) (l : List Char)
    (h : x ∈ replaceFirstEscape c l) : x = '\\' ∨ x ∈ l := by
  induction l with
  | nil => simp [replaceFirstEscape] at h
  | cons a as ih =>
    rw [replaceFirstEscape] at h
    by_cases ha : a = c
    · rw [if_pos ha] at h
      rcases List.mem_cons.mp h with h1 | h2
      · exact Or.inl h1
      · exact Or.inr h2
    · rw [if_neg ha] at h
      rcases List.mem_cons.mp h with h1 | h2
      · exact Or.inr (h1 ▸ List.mem_cons_self a as)
      · rcases ih h2 with h3 | h3
        · exact Or.inl h3
        · exact Or.inr (List.mem_cons_of_mem a h3)

/-- The thematic guard only adds a backslash. -/
theorem thematicGuard_mem (x : Char) (l : List Char)
    (h : x ∈ thematicGuard l) : x = '\\' ∨ x ∈ l := by
  rw [thematicGuard] at h
  split at h
  · split at h
    · exact replaceFirstEscape_mem '*' x l h
    · split at h
      · exact replaceFirstEscape_mem '-' x l h
      · split at h
        · exact replaceFirstEscape_mem '_' x l h
        · exact Or.inr h
  · exact Or.inr h

/-- The setext guard only adds a backslash. -/
theorem setextGuard_mem (x : Char) (l : List Char)
    (h : x ∈ setextGuard l) : x = '\\' ∨ x ∈ l := by
  rw [setextGuard] at h
  split at h
  · exact replaceFirstEscape_mem '-' x l h
  · split at h
    · exact replaceFirstEscape_mem '=' x l h
    · exact Or.inr h

/-- The escape-inserting guards only add backslashes. -/
theorem escapeGuards_mem (x : Char) (l : List Char)
    (h : x ∈ escapeGuards l) : x = '\\' ∨ x ∈ l := by
  have stepP : ∀ (b : Bool) (m : List Char), x ∈ (if b then '\\' :: m else m) →
      x = '\\' ∨ x ∈ m := by
    intro b m hm
    cases b with
    | false => exact Or.inr hm
    | true =>
      rcases List.mem_cons.mp hm with h1 | h2
      · exact Or.inl h1
      · exact Or.inr h2
  have stepR : ∀ (c : Char) (b : Bool) (m : List Char),
      x ∈ (if b then replaceFirstEscape c m else m) → x = '\\' ∨ x ∈ m := by
    intro c b m hm
    cases b with
    | false => exact Or.inr hm
    | true => exact replaceFirstEscape_mem c x m hm
  rw [escapeGuards] at h
  rcases setextGuard_mem x _ h with h | h
  · exact Or.inl h
  rcases thematicGuard_mem x _ h with h | h
  · exact Or.inl h
  rcases stepR '.' _ _ h with h | h
  · exact Or.inl h
  rcases stepR ')' _ _ h with h | h
  · exact Or.inl h
  rcases stepP _ _ h with h | h
  · exact Or.inl h
  rcases stepP _ _ h with h | h
  · exact Or.inl h
  rcases stepP _ _ h with h | h
  · exact Or.inl h
  exact Or.inr h

/-- The canonicalized line only adds backslashes and spaces. -/
theorem processLine_mem (x : Char) (s : List Char) (h : x ∈ processLine s) :
    x = '\\' ∨ x = ' ' ∨ x ∈ s := by
  rw [processLine] at h
  rcases List.mem_append.mp h with h1 | h2
  · have := (List.takeWhile_sublist isPySpace).mem h1
    exact Or.inr (Or.inr (pyRstrip_mem x s this))
  · have hg : x ∈ escapeGuards ((pyRstrip s).dropWhile isPySpace) →
        x = '\\' ∨ x = ' ' ∨ x ∈ s := by
      intro hgm
      rcases escapeGuards_mem x _ hgm with h3 | h3
      · exact Or.inl h3
      · have := (List.dropWhile_sublist isPySpace).mem h3
        exact Or.inr (Or.inr (pyRstrip_mem x s this))
    rcases instDecidableEqBool
        (htmlFlaggedMatch (escapeGuards ((pyRstrip s).dropWhile isPySpace))) true
        with hb | hb
    · rw [if_neg hb] at h2
      exact hg h2
    · rw [if_pos hb] at h2
      rcases List.mem_append.mp h2 with h4 | h4
      · right; left
        have hsp : x ∈ strL "    " := h4
        simpa [strL] using hsp
      · exact hg h4

/-- A newline-free line stays newline-free through the canonicalizer. -/
theorem processLine_no_nl (s : List Char) (hs : ('\n' : Char) ∉ s) :
    ('\n' : Char) ∉ processLine s := by
  intro hmem
  rcases processLine_mem '\n' s hmem with h | h | h
  · exact absurd h (by decide)
  · exact absurd h (by decide)
  · exact hs h

/-- Split lines contain no newline. -/
theorem splitLinesAux_no_nl (l : List Char) :
    ('\n' : Char) ∉ (splitLinesAux l).1 ∧
    ∀ m ∈ (splitLinesAux l).2, ('\n' : Char) ∉ m := by
  induction l with
  | nil => simp [splitLinesAux]
  | cons c rest ih =>
    rw [splitLinesAux]
    by_cases hc : c = '\n'
    · rw [if_pos hc]
      refine ⟨by simp, ?_⟩
      intro m hm
      rcases List.mem_cons.mp hm with rfl | hmm
      · exact ih.1
      · exact ih.2 m hmm
    · rw [if_neg hc]
      refine ⟨?_, ih.2⟩
      intro hmem
      rcases List.mem_cons.mp hmem with h1 | h2
      · exact hc h1.symm
      · exact ih.1 h2

/-- Splitting a newline-free string yields that single line. -/
theorem splitLinesAux_of_no_nl (l : List Char) (h : ('\n' : Char) ∉ l) :
    splitLinesAux l = (l, []) := by
  induction l with
  | nil => rfl
  | cons c rest ih =>
    have hc : c ≠ '\n' := by
      intro hce
      exact h (hce ▸ List.mem_cons_self c rest)
    rw [splitLinesAux, if_neg hc, ih (fun hm => h (List.mem_cons_of_mem c hm))]

/-- Splitting after a newline-free first segment. -/
theorem splitLinesAux_append (a r : List Char) (ha : ('\n' : Char) ∉ a) :
    splitLinesAux (a ++ '\n' :: r)
      = (a, (splitLinesAux r).1 :: (splitLinesAux r).2) := by
  induction a with
  | nil => simp [splitLinesAux]
  | cons x xs ih =>
    have hx : x ≠ '\n' := by
      intro hce
      exact ha (hce ▸ List.mem_cons_self x xs)
    rw [List.cons_append, splitLinesAux, if_neg hx,
      ih (fun hm => ha (List.mem_cons_of_mem x hm))]

/-- Unfolding `joinLines` on at least two lines. -/
theorem joinLines_cons_cons (l m : List Char) (ms : List (List Char)) :
    joinLines (l :: m :: ms) = l ++ '\n' :: joinLines (m :: ms) := rfl

/-- Splitting inverts joining for newline-free lines. -/
theorem splitLines_joinLines : ∀ (ls : List (List Char)),
    (∀ m ∈ ls, ('\n' : Char) ∉ m) → ls ≠ [] →
    splitLines (joinLines ls) = ls := by
  intro ls
  induction ls with
  | nil => intro _ hne; exact absurd rfl hne
  | cons l ls' ih =>
    intro h _
    cases ls' with
    | nil =>
      rw [joinLines, splitLines,
        splitLinesAux_of_no_nl l (h l (List.mem_cons_self l []))]
    | cons m ms =>
      rw [joinLines_cons_cons, splitLines,
        splitLinesAux_append l _ (h l (List.mem_cons_self l _))]
      have hrest := ih (fun m' hm' => h m' (List.mem_cons_of_mem l hm'))
        (List.cons_ne_nil m ms)
      rw [splitLines] at hrest
      rw [hrest]

/-! ## Claim theorems -/

/-- C2 (failing input): the escape scanner's backward scan is not bounded
by the buffer start.  At buffer `"\"` (a single backslash) and position 1
the maximal backslash run before the position has length 1, so the
claimed parity rule demands `true` (`(1 mod 2) == 1`), but `is_escaped`
returns `false`: the loop decrements its cursor to `-1` and the Python
read `state.src[-1]` wraps around to the last character of the buffer,
counting the run's backslash a second time.  Likewise at buffer `"a\"`
and position 0 no character precedes the position, yet the function
returns `true` after reading the buffer's final backslash. -/
theorem is_escaped_buffer_start_bug :
    backslashRunBefore (strL "\\") 1 = 1 ∧ 1 % 2 = 1 ∧
    is_escaped (strL "\\") 1 0 = false ∧
    backslashRunBefore (strL "a\\") 0 = 0 ∧
    is_escaped (strL "a\\") 0 0 = true := by decide

/-- C8 (failing input): at the inline buffer `"\\[[a]]\"` and position 2
the opening `[[` is preceded by a run of two backslashes (even, hence
unescaped under the default-parity rule the claim references), and an
unescaped `]]` terminator exists at index 5, so by the claim the scanner
must match; the code instead returns "not matched" without any state
change, because `is_escaped` wraps its backward scan around to the
trailing backslash of the buffer and reports an odd count. -/
theorem obsidian_links_escaped_open_bug :
    backslashRunBefore (strL "\\\\[[a]]\\") 2 = 2 ∧
    findFrom (strL "\\\\[[a]]\\") 4 = some 5 ∧
    backslashRunBefore (strL "\\\\[[a]]\\") 5 = 0 ∧
    is_escaped (strL "\\\\[[a]]\\") 2 0 = true ∧
    obsidian_links_rule false ⟨strL "\\\\[[a]]\\", 2, []⟩ =
      (false, ⟨strL "\\\\[[a]]\\", 2, []⟩) := by decide

/-- C3 (counterexample): running the callout rule non-silently on the
header text `"[!note] t"` from a state whose nesting descriptor is
`"blockquote"`, the descriptor's type after emission is the literal
`"div"` — not the callout-specific marker `"obsidian_callout"` that the
claim says remains in force (and not the saved type either). -/
theorem callout_parentType_counterexample :
    (alert_logic (fun s _ _ => s) false (strL "[!note] t")
        ⟨"blockquote", 42, 0, []⟩ 0 7 false).2.parentType = "div" ∧
    ("div" : String) ≠ obsidianCalloutName ∧
    ("div" : String) ≠ "blockquote" := by decide

/-- C3 (amended): after a successful non-silent callout match emits its
tokens, the scanner restores the saved line bound and advances the scan
line to `bodyEndLine`, but sets the nesting-descriptor type to the
literal `"div"`: the saved type is never restored, and the
callout-specific marker installed for the recursive body parse does not
remain after emission. -/
theorem callout_state_after_emission
    (tokenize : StateBlock → Nat → Nat → StateBlock)
    (st : StateBlock) (start_line : Nat) (d : CalloutData) :
    (format_obsidian_callout_markup tokenize st start_line d).lineMax
      = d.old_state.lineMax ∧
    (format_obsidian_callout_markup tokenize st start_line d).line
      = d.next_line ∧
    (format_obsidian_callout_markup tokenize st start_line d).parentType
      = "div" := by
  refine ⟨?_, ?_, ?_⟩ <;> simp [format_obsidian_callout_markup]

/-- C4 (counterexample): for the paragraph line `"1. not a list"` the
canonicalizer output is `"1\. not a list"`: the single escape character
is inserted before the `.` (the ordered-marker guard escapes the closing
character, not the digits), so the first character of the affected line
is `'1'` and is not preceded by an inserted escape character. -/
theorem paragraph_ordered_guard_counterexample :
    processLine (strL "1. not a list") = strL "1\\. not a list" ∧
    (processLine (strL "1. not a list")).head? = some '1' := by decide

/-- C4 (amended): each of the six inputs produces output with exactly one
escape character inserted before the guard's matched character — the
first character of the line for the heading, quote, bullet,
thematic-break and setext guards, and the `.` for the ordered-marker
input — and removing that single escape recovers the original line
right-stripped (which differs from the original only for `"--- "`, whose
trailing space the canonicalizer strips before the guards run). -/
theorem paragraph_guard_coverage_amended :
    processLine (strL "# not a heading") = '\\' :: strL "# not a heading" ∧
    processLine (strL "> not a quote") = '\\' :: strL "> not a quote" ∧
    processLine (strL "- not a list") = '\\' :: strL "- not a list" ∧
    processLine (strL "1. not a list") = strL "1" ++ '\\' :: strL ". not a list" ∧
    processLine (strL "--- ") = '\\' :: strL "---" ∧
    processLine (strL "===") = '\\' :: strL "===" ∧
    removeFirstBackslash (processLine (strL "# not a heading"))
      = pyRstrip (strL "# not a heading") ∧
    removeFirstBackslash (processLine (strL "> not a quote"))
      = pyRstrip (strL "> not a quote") ∧
    removeFirstBackslash (processLine (strL "- not a list"))
      = pyRstrip (strL "- not a list") ∧
    removeFirstBackslash (processLine (strL "1. not a list"))
      = pyRstrip (strL "1. not a list") ∧
    removeFirstBackslash (processLine (strL "--- "))
      = pyRstrip (strL "--- ") ∧
    removeFirstBackslash (processLine (strL "==="))
      = pyRstrip (strL "===") := by decide

/-- C7: rendering an `internal_link` node with content `C` produces
exactly `[[C]]` and an `embed_file` node produces exactly `![[C]]`
(regardless of markup and children), and scanning the inline text
`"See [[Note A]] and ![[img.png]]."` with the wikilink/embed rule under
the host dispatch (modelled per the spec) yields exactly one
`internal_link` token with content `"Note A"` and one `embed_file` token
with content `"img.png"` — the contents being the exact text strictly
between the delimiters. -/
theorem wikilink_round_trip :
    (∀ (C m : List Char) (ch : List Node),
      renderNode (.mk "internal_link" C m ch) = strL "[[" ++ C ++ strL "]]") ∧
    (∀ (C m : List Char) (ch : List Node),
      renderNode (.mk "embed_file" C m ch) = strL "![[" ++ C ++ strL "]]") ∧
    inlineDriver (strL "See [[Note A]] and ![[img.png]].") =
      [⟨"internal_link", strL "Note A"⟩, ⟨"embed_file", strL "img.png"⟩] := by
  refine ⟨?_, ?_, by decide⟩ <;>
    intro C m ch <;> simp [renderNode, obsidianCalloutName]

/-- C5: for every ordered list, each item's marker number string is the
decimal representation of `start_number + item_index` zero-padded to the
digit count of `item_count + start_number - 1`, where `start_number`
defaults to 1 when the node carries no explicit start attribute: the
marker's length equals that digit count and its numeric value is
`start_number + item_index`. -/
theorem ordered_list_padding (list_len : Nat) (startAttr : Option Nat) (idx : Nat)
    (h : idx < list_len) :
    (ordered_item_number list_len (orderedListStart startAttr) idx).length
      = (natDigits (list_len + orderedListStart startAttr - 1)).length ∧
    digitsToNat (ordered_item_number list_len (orderedListStart startAttr) idx)
      = orderedListStart startAttr + idx := by
  set s := orderedListStart startAttr with hs
  constructor
  · rw [ordered_item_number, ordered_pad, rjust_length]
    have hle : s + idx ≤ list_len + s - 1 := by omega
    have := natDigits_length_mono (list_len + s - 1) (s + idx) hle
    omega
  · rw [ordered_item_number, digitsToNat_rjust_zero, digitsToNat_natDigits]

/-- C5 witness: a 12-item ordered list starting at 100 numbers its items
100 through 111 with every marker exactly 3 digits wide. -/
theorem ordered_list_padding_witness :
    (11 < 12 ∧
     (ordered_item_number 12 (orderedListStart (some 100)) 11).length
        = (natDigits (12 + orderedListStart (some 100) - 1)).length ∧
     digitsToNat (ordered_item_number 12 (orderedListStart (some 100)) 11)
        = orderedListStart (some 100) + 11) ∧
    (List.range 12).map (fun i => ordered_item_number 12 100 i)
      = [strL "100", strL "101", strL "102", strL "103", strL "104", strL "105",
         strL "106", strL "107", strL "108", strL "109", strL "110", strL "111"] ∧
    ((List.range 12).map (fun i => ordered_item_number 12 100 i)).all
      (fun m => m.length = 3) = true :=
  ⟨⟨by decide, ordered_list_padding 12 (some 100) 11 (by decide)⟩, by decide, by decide⟩

/-- C6: for a callout node whose markup was synthesized by the scanner
from a (newline-free) kind, fold marker and custom title, the callout
renderer strips the internal separator from the stored markup (yielding
the header line `[!kind]fold customTitle`), renders the children in
document order via the generic dispatch, filters out the children whose
rendered text is empty, joins the rest with a blank-line separator, joins
the header to that body with a single newline, and trims only trailing
whitespace; the title, title-inner and fold-marker containers render as
the empty string, and the content container is the blank-line join of its
non-empty children. -/
theorem callout_renderer_contract (kind fold custom c m : List Char)
    (children : List Node)
    (hk : '\n' ∉ kind) (hf : '\n' ∉ fold) (hc : '\n' ∉ custom) :
    renderNode (.mk obsidianCalloutName c (calloutMarkup kind fold custom) children)
      = pyRstrip ((strL "[!" ++ kind ++ strL "]" ++ fold ++ custom)
          ++ '\n' :: joinBlank (filterNonEmpty (children.map renderNode))) ∧
    renderNode (.mk (obsidianCalloutName ++ "_title") c m children) = [] ∧
    renderNode (.mk (obsidianCalloutName ++ "_title_inner") c m children) = [] ∧
    renderNode (.mk (obsidianCalloutName ++ "_collapsed") c m children) = [] ∧
    renderNode (.mk (obsidianCalloutName ++ "_content") c m children)
      = pyRstrip (joinBlank (filterNonEmpty (children.map renderNode))) := by
  have ha : '\n' ∉ strL "[!" ++ kind ++ strL "]" ++ fold := by
    simp [List.mem_append, strL]
    exact ⟨hk, hf⟩
  refine ⟨?_, ?_, ?_, ?_, ?_⟩ <;>
    simp [renderNode, obsidianCalloutName, renderList_eq_map]
  · rw [calloutMarkup]
    rw [show strL "[!" ++ kind ++ strL "]" ++ fold ++ inlineSep ++ custom
        = (strL "[!" ++ kind ++ strL "]" ++ fold) ++ '\n' :: '\n' :: custom by
      simp [inlineSep]]
    rw [removeSep_append_sep _ _ ha hc]
    simp

/-- C6 witness: the spec's callout round-trip example, rendered through
the contract: header `[!warning]- Careful`, a single newline, then the
two body paragraphs joined by a blank line. -/
theorem callout_renderer_contract_witness :
    ('\n' ∉ strL "warning") ∧ ('\n' ∉ strL "-") ∧ ('\n' ∉ strL " Careful") ∧
    renderNode (.mk obsidianCalloutName []
        (calloutMarkup (strL "warning") (strL "-") (strL " Careful"))
        [.mk (obsidianCalloutName ++ "_title") [] []
            [.mk (obsidianCalloutName ++ "_title_inner") [] []
                [.mk "inline" (strL "Careful") [] []]],
         .mk (obsidianCalloutName ++ "_content") [] []
            [.mk "paragraph" (strL "body line one") [] [],
             .mk "paragraph" (strL "body line two") [] []]])
      = strL "[!warning]- Careful\nbody line one\n\nbody line two" := by
  refine ⟨by decide, by decide, by decide, ?_⟩
  have h := (callout_renderer_contract (strL "warning") (strL "-") (strL " Careful")
    [] []
    [.mk (obsidianCalloutName ++ "_title") [] []
        [.mk (obsidianCalloutName ++ "_title_inner") [] []
            [.mk "inline" (strL "Careful") [] []]],
     .mk (obsidianCalloutName ++ "_content") [] []
        [.mk "paragraph" (strL "body line one") [] [],
         .mk "paragraph" (strL "body line two") [] []]]
    (by decide) (by decide) (by decide)).1
  rw [h]
  simp [renderNode, obsidianCalloutName, renderList_eq_map, filterNonEmpty,
    joinBlank, pyRstrip, strL, isPySpace]

/-- C9: when a paragraph line's content (after the right-strip and the
indent split) matches a paragraph-interrupting raw-HTML opener, the
canonicalizer emits the indent, then 4 literal spaces, then the content
unchanged — no inline escape is inserted, because the escape-inserting
guards, which all run earlier, leave a line beginning with `<`
untouched (second conjunct). -/
theorem paragraph_html_block_guard (s : List Char)
    (h : htmlFlaggedMatch ((pyRstrip s).dropWhile isPySpace) = true) :
    processLine s = (pyRstrip s).takeWhile isPySpace
      ++ (strL "    " ++ (pyRstrip s).dropWhile isPySpace) ∧
    escapeGuards ((pyRstrip s).dropWhile isPySpace)
      = (pyRstrip s).dropWhile isPySpace := by
  obtain ⟨t, ht⟩ := htmlFlaggedMatch_head _ h
  have hg : escapeGuards ((pyRstrip s).dropWhile isPySpace)
      = (pyRstrip s).dropWhile isPySpace := by
    rw [ht]; exact escapeGuards_lt t
  refine ⟨?_, hg⟩
  rw [processLine]
  simp only [hg, h, if_pos]

/-- C9 witness: the line `<script>` is demoted to an indented code line
`"    <script>"` rather than escaped. -/
theorem paragraph_html_block_guard_witness :
    htmlFlaggedMatch ((pyRstrip (strL "<script>")).dropWhile isPySpace) = true ∧
    processLine (strL "<script>") = strL "    <script>" := by
  refine ⟨by decide, ?_⟩
  have h := (paragraph_html_block_guard (strL "<script>") (by decide)).1
  rw [h]
  decide

/-- C10: no line of the paragraph renderer's output (splitting the result
on newlines) ends with a space or a tab character: each line is
right-stripped before the guards run and every guard only prepends or
inserts characters before existing non-whitespace content. -/
theorem paragraph_no_trailing_whitespace (s l : List Char)
    (h : l ∈ splitLines (paragraphCore s)) :
    l.getLast? ≠ some ' ' ∧ l.getLast? ≠ some '\t' := by
  rw [paragraphCore] at h
  have hmem : ∀ m ∈ (splitLines s).map processLine, ('\n' : Char) ∉ m := by
    intro m hm
    obtain ⟨s', hs', rfl⟩ := List.mem_map.mp hm
    have hsplit := splitLinesAux_no_nl s
    rw [splitLines] at hs'
    have hs'nl : ('\n' : Char) ∉ s' := by
      rcases List.mem_cons.mp hs' with rfl | hmm
      · exact hsplit.1
      · exact hsplit.2 s' hmm
    exact processLine_no_nl s' hs'nl
  have hne : (splitLines s).map processLine ≠ [] := by
    rw [splitLines]
    simp
  rw [splitLines_joinLines _ hmem hne] at h
  obtain ⟨s', _, rfl⟩ := List.mem_map.mp h
  exact processLine_getLast s'

/-- C10 witness: the rendered form of `"canon  \nnext\t"` contains the
line `canon`, which ends in its last letter, not whitespace. -/
theorem paragraph_no_trailing_whitespace_witness :
    (strL "canon" ∈ splitLines (paragraphCore (strL "canon  \nnext\t"))) ∧
    (strL "canon").getLast? ≠ some ' ' ∧ (strL "canon").getLast? ≠ some '\t' :=
  ⟨by decide,
   paragraph_no_trailing_whitespace (strL "canon  \nnext\t") (strL "canon")
     (by decide)⟩

end MdformatObsidian
